import Mathlib

/-!
Shallow embedding of the Mission Control v4 offline mutation pipeline:
the offline mutation queue (`OfflineQueue` in the offline queue module)
and the transport (`ApiClient._fetch` in `src/api/apiClient.js`).

Modelling conventions:
* JS timestamps (ISO strings ordered lexicographically, i.e. chronologically)
  are modelled as `Nat`; an absent (`undefined`) field is `Option.none`, so JS
  truthiness tests on such fields become `Option.isSome` / `Option.getD`.
* The IndexedDB object store keyed on `idempotencyKey` is a `List Mutation`;
  `put` replaces by key, `delete` filters by key, and `index('enqueuedAt').getAll()`
  sorts ascending by `enqueuedAt`.
* The side effects of a flush pass (awaited removals, emitted events, backoff
  waits, transport attempts, re-persists) are recorded as an `Action` trace in
  program order.
-/

namespace MC

def MAX_RETRIES : Nat := 5

def BASE_DELAY_MS : Nat := 1000

/-- A pending mutation record, as stored in the `mutations` object store. -/
structure Mutation where
  idempotencyKey : String
  method : String
  path : String
  body : Option String
  enqueuedAt : Option Nat
  retries : Nat
deriving DecidableEq, Repr

/-- The result object returned by `ApiClient._fetch`: `{ok, status, data}` on a
completed HTTP exchange, `{ok:false, status:0, data:null, localOnly:true}` in
local-only mode, `{ok:false, status:0, data:null, offline:true}` on a network
error.  Fields absent in a given JS literal are modelled as `false` / `none`. -/
structure FetchResult where
  ok : Bool
  status : Nat
  data : Option String
  localOnly : Bool
  offline : Bool
deriving DecidableEq, Repr

/-- Sort key used by the `enqueuedAt` IndexedDB index. -/
def timeOf (m : Mutation) : Nat := m.enqueuedAt.getD 0

/-- Ordering relation of the `enqueuedAt` index (ascending). -/
def timeLe (a b : Mutation) : Prop := timeOf a ≤ timeOf b

instance : DecidableRel timeLe := fun a b => Nat.decLe (timeOf a) (timeOf b)

instance : IsTotal Mutation timeLe := ⟨fun a b => Nat.le_total (timeOf a) (timeOf b)⟩

instance : IsTrans Mutation timeLe := ⟨fun _ _ _ h h2 => Nat.le_trans h h2⟩

/-- `store.delete(key)`: removes the record stored under `k` (no-op if absent). -/
def ledgerRemove (L : List Mutation) (k : String) : List Mutation :=
  L.filter (fun x => x.idempotencyKey ≠ k)

/-- `store.put(record)` with `keyPath: 'idempotencyKey'`: replace-by-key. -/
def ledgerPut (L : List Mutation) (r : Mutation) : List Mutation :=
  L.filter (fun x => x.idempotencyKey ≠ r.idempotencyKey) ++ [r]

/-- The record built by `OfflineQueue.enqueue`:
`{...mutation, retries: 0, enqueuedAt: mutation.enqueuedAt || now}`.
The `retries: 0` field follows the spread, so it overrides whatever `retries`
the input carries. -/
def enqueueRecord (m : Mutation) (now : Nat) : Mutation :=
  { m with retries := 0, enqueuedAt := some (m.enqueuedAt.getD now) }

/-- `OfflineQueue.getAll`: all pending mutations via the `enqueuedAt` index,
i.e. sorted by `enqueuedAt` ascending (oldest first). -/
def getAll (L : List Mutation) : List Mutation :=
  List.insertionSort timeLe L

/-- Process-local queue state: the durable ledger plus the single-flight
`flushing` flag of `OfflineQueue`. -/
structure QueueState where
  ledger : List Mutation
  flushing : Bool
deriving DecidableEq, Repr

/-- `OfflineQueue.enqueue` acting on the ledger, returning the persisted record. -/
def enqueue (s : QueueState) (m : Mutation) (now : Nat) : QueueState × Mutation :=
  let r := enqueueRecord m now
  ({ s with ledger := ledgerPut s.ledger r }, r)

/-- One observable step of the flush loop, in program order. -/
inductive Action where
  | removeKey (k : String)
  | emit (name : String) (m : Mutation)
  | wait (ms : Nat)
  | attempt (m : Mutation) (r : FetchResult)
  | put (r : Mutation)
deriving DecidableEq, Repr

/-- Outcome of one iteration of the `for` loop in `OfflineQueue.flush`:
either continue with the next mutation (`next`) or `break` (`halt`). -/
inductive StepOut where
  | next (L : List Mutation) (acts : List Action)
  | halt (L : List Mutation) (acts : List Action)
deriving DecidableEq, Repr

def StepOut.ledgerOf : StepOut → List Mutation
  | .next L _ => L
  | .halt L _ => L

def StepOut.actsOf : StepOut → List Action
  | .next _ a => a
  | .halt _ a => a

/-- The backoff wait of `OfflineQueue.flush` for one mutation:
`if (mutation.retries > 0) await sleep(BASE_DELAY_MS * 2 ** (retries - 1))`. -/
def preActs (m : Mutation) : List Action :=
  if 0 < m.retries then [.wait (BASE_DELAY_MS * 2 ^ (m.retries - 1))] else []

/-- The body of the `for (const mutation of mutations)` loop in
`OfflineQueue.flush`, for one mutation `m` against current ledger `L`:
retry-budget discard, exponential backoff wait, transport attempt, then
outcome routing (`ok` / `offline` / 409 / other). -/
def flushStep (send : Mutation → FetchResult) (now : Nat) (m : Mutation)
    (L : List Mutation) : StepOut :=
  if MAX_RETRIES ≤ m.retries then
    .next (ledgerRemove L m.idempotencyKey)
      [.removeKey m.idempotencyKey, .emit "failed" m]
  else
    let pre := preActs m
    let r := send m
    if r.ok then
      .next (ledgerRemove L m.idempotencyKey)
        (pre ++ [.attempt m r, .removeKey m.idempotencyKey, .emit "flushed" m])
    else if r.offline then
      .halt L (pre ++ [.attempt m r])
    else if r.status = 409 then
      .next (ledgerRemove L m.idempotencyKey)
        (pre ++ [.attempt m r, .removeKey m.idempotencyKey, .emit "conflict" m])
    else
      let nr := enqueueRecord { m with retries := m.retries + 1 } now
      .next (ledgerPut L nr) (pre ++ [.attempt m r, .put nr, .emit "enqueued" nr])

/-- The drain loop of `OfflineQueue.flush` over the snapshot `items` read by
`getAll`, threading the ledger and accumulating the action trace; a `halt`
step (`result.offline`) breaks out of the loop. -/
def flushLoop (send : Mutation → FetchResult) (now : Nat) :
    List Mutation → List Mutation → List Mutation × List Action
  | [], L => (L, [])
  | m :: rest, L =>
    match flushStep send now m L with
    | .next L2 acts =>
      let p := flushLoop send now rest L2
      (p.1, acts ++ p.2)
    | .halt L2 acts => (L2, acts)

/-- `OfflineQueue.flush(apiClient)`: single-flight guarded drain.  If a flush
is already in progress it returns immediately (no ledger read, no attempt);
otherwise it drains the `getAll` snapshot and finally clears the guard. -/
def flush (send : Mutation → FetchResult) (now : Nat) (s : QueueState) :
    QueueState × List Action :=
  if s.flushing then (s, [])
  else
    let p := flushLoop send now (getAll s.ledger) s.ledger
    ({ ledger := p.1, flushing := false }, p.2)

/-- Iterated flush passes (e.g. repeated online transitions), same transport
behaviour each pass, with the traces concatenated. -/
def flushPasses (send : Mutation → FetchResult) (now : Nat) :
    Nat → QueueState → QueueState × List Action
  | 0, s => (s, [])
  | n + 1, s =>
    let p := flush send now s
    let q := flushPasses send now n p.1
    (q.1, p.2 ++ q.2)

/-- The transport attempts recorded in a trace, in order. -/
def attemptsOf : List Action → List Mutation
  | [] => []
  | .attempt m _ :: tr => m :: attemptsOf tr
  | .removeKey _ :: tr => attemptsOf tr
  | .emit _ _ :: tr => attemptsOf tr
  | .wait _ :: tr => attemptsOf tr
  | .put _ :: tr => attemptsOf tr

/-- The backoff waits recorded in a trace, in order. -/
def waitsOf : List Action → List Nat
  | [] => []
  | .wait d :: tr => d :: waitsOf tr
  | .attempt _ _ :: tr => waitsOf tr
  | .removeKey _ :: tr => waitsOf tr
  | .emit _ _ :: tr => waitsOf tr
  | .put _ :: tr => waitsOf tr

/-- Transport-level halt condition for a mutation `m`: `m` is actually
attempted (retry budget not exhausted) and the attempt returns the
network-error result, which makes the drain loop `break`. -/
def haltsOn (send : Mutation → FetchResult) (m : Mutation) : Prop :=
  m.retries < MAX_RETRIES ∧ (send m).ok = false ∧ (send m).offline = true

/-- The keys present in a ledger. -/
def keysOf (L : List Mutation) : List String :=
  L.map Mutation.idempotencyKey

/-- An outgoing HTTP request as assembled by `ApiClient._fetch`. -/
structure NetRequest where
  url : String
  method : String
  headers : List (String × String)
  body : Option String
deriving DecidableEq, Repr

/-- Behaviour of the underlying `fetch` call: either a response (with its
`ok` flag, status, and whether the `content-type` is JSON) or a thrown
network error. -/
inductive NetResponse where
  | reply (ok : Bool) (status : Nat) (isJson : Bool) (payload : String)
  | netError
deriving DecidableEq, Repr

/-- Result and side effects of one `_fetch` invocation: the returned result
object, the network requests actually issued, and the mutations enqueued to
the offline ledger. -/
structure FetchEffects where
  result : FetchResult
  requests : List NetRequest
  enqueued : List Mutation
deriving DecidableEq, Repr

/-- URL building of `_fetch` (`new URL(path, baseUrl)` plus query params),
abstracted to concatenation; the claims do not depend on URL syntax. -/
def buildUrl (baseUrl path : String) (params : List (String × String)) : String :=
  baseUrl ++ path ++ params.foldl (fun acc p => acc ++ "&" ++ p.1 ++ "=" ++ p.2) ""

/-- The headers assembled by `_fetch`: `Content-Type` always, `Authorization`
when a token is present (truthy), `Idempotency-Key` when a key is present. -/
def fetchHeaders (token idempotencyKey : Option String) : List (String × String) :=
  let h0 := [("Content-Type", "application/json")]
  let h1 := match token with
    | some t => h0 ++ [("Authorization", "Bearer " ++ t)]
    | none => h0
  match idempotencyKey with
  | some k => h1 ++ [("Idempotency-Key", k)]
  | none => h1

/-- The request `_fetch` hands to `fetch`: the body is attached only for
non-GET verbs (`if (body && method !== 'GET')`). -/
def fetchRequest (baseUrl : String) (token : Option String) (method path : String)
    (body : Option String) (params : List (String × String))
    (idempotencyKey : Option String) : NetRequest :=
  { url := buildUrl baseUrl path params
    method := method
    headers := fetchHeaders token idempotencyKey
    body := if method ≠ "GET" then body else none }

/-- `ApiClient._fetch(method, path, {body, params, idempotencyKey})`.
`baseUrl = ""` is local-only mode (`isRemote()` false, JS empty string is
falsy): return `{ok:false, status:0, data:null, localOnly:true}` with no
network call.  Otherwise issue one `fetch`; on a response, return
`{ok, status, data}`; on a thrown network error, enqueue the write to the
offline queue when it is a non-GET with an idempotency key, and return
`{ok:false, status:0, data:null, offline:true}`. -/
def fetchImpl (baseUrl : String) (token : Option String)
    (net : NetRequest → NetResponse) (now : Nat) (method path : String)
    (body : Option String) (params : List (String × String))
    (idempotencyKey : Option String) : FetchEffects :=
  if baseUrl = "" then
    { result := { ok := false, status := 0, data := none, localOnly := true, offline := false }
      requests := []
      enqueued := [] }
  else
    let req := fetchRequest baseUrl token method path body params idempotencyKey
    match net req with
    | .reply ok status isJson payload =>
      { result := { ok := ok, status := status
                    data := if isJson then some payload else none
                    localOnly := false, offline := false }
        requests := [req]
        enqueued := [] }
    | .netError =>
      let enq :=
        if method ≠ "GET" ∧ idempotencyKey.isSome then
          [enqueueRecord
            { idempotencyKey := idempotencyKey.getD ""
              method := method, path := path, body := body
              enqueuedAt := some now, retries := 0 } now]
        else []
      { result := { ok := false, status := 0, data := none, localOnly := false, offline := true }
        requests := [req]
        enqueued := enq }

/-! Concrete transports and mutations used to evaluate the model on the
scenarios of the specification. -/

/-- An `ApplicationFailure(500)` transport result. -/
def r500 : FetchResult :=
  { ok := false, status := 500, data := none, localOnly := false, offline := false }

/-- The network-error transport result of `_fetch`. -/
def rOffline : FetchResult :=
  { ok := false, status := 0, data := none, localOnly := false, offline := true }

/-- An HTTP 409 conflict transport result. -/
def r409 : FetchResult :=
  { ok := false, status := 409, data := none, localOnly := false, offline := false }

/-- A 2xx transport result. -/
def rOk : FetchResult :=
  { ok := true, status := 200, data := none, localOnly := false, offline := false }

/-- A transport that always answers `ApplicationFailure(500)`. -/
def send500 : Mutation → FetchResult := fun _ => r500

/-- A transport that always throws a network error. -/
def sendOffline : Mutation → FetchResult := fun _ => rOffline

/-- A transport that always answers HTTP 409. -/
def send409 : Mutation → FetchResult := fun _ => r409

/-- The scenario mutation `{id:"k1", method:"POST", path:"/tasks", body:{title:"x"}}`. -/
def wk1 : Mutation :=
  { idempotencyKey := "k1", method := "POST", path := "/tasks"
    body := some "x", enqueuedAt := none, retries := 0 }

/-- Queue state holding exactly the freshly enqueued `wk1`. -/
def s0 : QueueState := (enqueue { ledger := [], flushing := false } wk1 0).1

/-- A mutation enqueued at time 1 (the older one in ordering scenarios). -/
def wA : Mutation :=
  { idempotencyKey := "a", method := "POST", path := "/tasks"
    body := some "x", enqueuedAt := some 1, retries := 0 }

/-- A mutation enqueued at time 2 (the newer one in ordering scenarios). -/
def wB : Mutation :=
  { idempotencyKey := "b", method := "PATCH", path := "/tasks/1"
    body := some "y", enqueuedAt := some 2, retries := 0 }

/-- A record whose persisted retry counter is at the retry ceiling. -/
def m5 : Mutation :=
  { idempotencyKey := "k5", method := "POST", path := "/tasks"
    body := some "z", enqueuedAt := some 3, retries := 5 }

/-- A record whose persisted retry counter is 3. -/
def m3 : Mutation :=
  { idempotencyKey := "k3", method := "POST", path := "/tasks"
    body := some "w", enqueuedAt := some 4, retries := 3 }

/-- A network that always throws. -/
def netErr : NetRequest → NetResponse := fun _ => .netError

/-! ### Basic lemmas about the observers and the step function -/

theorem attemptsOf_append (t1 t2 : List Action) :
    attemptsOf (t1 ++ t2) = attemptsOf t1 ++ attemptsOf t2 := by
  induction t1 with
  | nil => rfl
  | cons a t ih => cases a <;> simp [attemptsOf, ih]

theorem waitsOf_append (t1 t2 : List Action) :
    waitsOf (t1 ++ t2) = waitsOf t1 ++ waitsOf t2 := by
  induction t1 with
  | nil => rfl
  | cons a t ih => cases a <;> simp [waitsOf, ih]

theorem enqueueRecord_key (m : Mutation) (now : Nat) :
    (enqueueRecord m now).idempotencyKey = m.idempotencyKey := rfl

theorem enqueueRecord_retries (m : Mutation) (now : Nat) :
    (enqueueRecord m now).retries = 0 := rfl

theorem flushStep_discard (send : Mutation → FetchResult) (now : Nat) (m : Mutation)
    (L : List Mutation) (h : MAX_RETRIES ≤ m.retries) :
    flushStep send now m L =
      .next (ledgerRemove L m.idempotencyKey)
        [.removeKey m.idempotencyKey, .emit "failed" m] := by
  simp [flushStep, h]

theorem flushStep_ok (send : Mutation → FetchResult) (now : Nat) (m : Mutation)
    (L : List Mutation) (h : ¬ MAX_RETRIES ≤ m.retries) (hok : (send m).ok = true) :
    flushStep send now m L =
      .next (ledgerRemove L m.idempotencyKey)
        (preActs m ++ [.attempt m (send m), .removeKey m.idempotencyKey, .emit "flushed" m]) := by
  simp [flushStep, h, hok]

theorem flushStep_offline (send : Mutation → FetchResult) (now : Nat) (m : Mutation)
    (L : List Mutation) (h : ¬ MAX_RETRIES ≤ m.retries) (hok : (send m).ok = false)
    (hoff : (send m).offline = true) :
    flushStep send now m L = .halt L (preActs m ++ [.attempt m (send m)]) := by
  simp [flushStep, h, hok, hoff]

theorem flushStep_conflict (send : Mutation → FetchResult) (now : Nat) (m : Mutation)
    (L : List Mutation) (h : ¬ MAX_RETRIES ≤ m.retries) (hok : (send m).ok = false)
    (hoff : (send m).offline = false) (hst : (send m).status = 409) :
    flushStep send now m L =
      .next (ledgerRemove L m.idempotencyKey)
        (preActs m ++ [.attempt m (send m), .removeKey m.idempotencyKey, .emit "conflict" m]) := by
  simp [flushStep, h, hok, hoff, hst]

theorem flushStep_retry (send : Mutation → FetchResult) (now : Nat) (m : Mutation)
    (L : List Mutation) (h : ¬ MAX_RETRIES ≤ m.retries) (hok : (send m).ok = false)
    (hoff : (send m).offline = false) (hst : (send m).status ≠ 409) :
    flushStep send now m L =
      .next (ledgerPut L (enqueueRecord { m with retries := m.retries + 1 } now))
        (preActs m ++ [.attempt m (send m),
          .put (enqueueRecord { m with retries := m.retries + 1 } now),
          .emit "enqueued" (enqueueRecord { m with retries := m.retries + 1 } now)]) := by
  simp [flushStep, h, hok, hoff, hst]

/-! ### Claim theorems -/

/-- C1: evaluation at the failing input.  A mutation that always receives
`ApplicationFailure(500)` is NOT discarded after `MAX_RETRIES` failed
attempts: because `enqueue` writes `retries: 0` after spreading the input,
the persisted retry counter never advances, so after 6 flush passes the
transport has been attempted 6 times and the ledger still holds the record
with `retries = 0`. -/
theorem retry_budget_not_enforced :
    (attemptsOf (flushPasses send500 0 6 s0).2).length = 6 ∧
    (flushPasses send500 0 6 s0).1.ledger =
      [{ idempotencyKey := "k1", method := "POST", path := "/tasks"
         body := some "x", enqueuedAt := some 0, retries := 0 }] := by
  decide

/-- C2: evaluation at the failing input.  After 4 flush passes in which the
transport answers `ApplicationFailure(500)` every time, the persisted record
still has `retries = 0` (the spec scenario expects `retries = 4`): the
re-persist in `flush` goes through `enqueue`, whose `retries: 0` overrides
the incremented counter.  `enqueueRecord` also zeroes an input that carries
`retries = 3`. -/
theorem retries_not_incremented_in_ledger :
    (flushPasses send500 0 4 s0).1.ledger.map Mutation.retries = [0] ∧
    (attemptsOf (flushPasses send500 0 4 s0).2).length = 4 ∧
    (enqueueRecord m3 9).retries = 0 := by
  decide

/-- C5: single-flight flush.  A `flush` call that arrives while
`s.flushing = true` returns immediately with the state unchanged and an empty
trace (no ledger read, no attempt); and any `flush` run that actually starts
(guard clear) ends with the guard cleared, for every transport behaviour
(drained fully or stopped on a transport failure alike). -/
theorem flush_single_flight (send : Mutation → FetchResult) (now : Nat)
    (s : QueueState) (h : s.flushing = true) :
    flush send now s = (s, []) ∧
    (flush send now { s with flushing := false }).1.flushing = false := by
  constructor
  · simp [flush, h]
  · simp [flush]

/-- Witness for C5 at a concrete busy state and a concrete transport. -/
theorem flush_single_flight_witness :
    flush send500 0 { ledger := [wk1], flushing := true } =
      ({ ledger := [wk1], flushing := true }, []) ∧
    (flush send500 0 { ledger := [wk1], flushing := false }).1.flushing = false :=
  flush_single_flight send500 0 { ledger := [wk1], flushing := true } rfl

/-- C6: backoff schedule of the drain loop.  For a mutation taken in the loop
with `retries = r < MAX_RETRIES`: if `r > 0` its turn begins with a wait of
exactly `BASE_DELAY_MS * 2 ^ (r - 1)` milliseconds immediately followed by
the transport attempt, and that is the only wait of the turn; if `r = 0` the
turn performs no wait at all and begins with the attempt. -/
theorem backoff_schedule (send : Mutation → FetchResult) (now : Nat) (m : Mutation)
    (L : List Mutation) (h : m.retries < MAX_RETRIES) :
    (0 < m.retries →
      waitsOf (flushStep send now m L).actsOf = [BASE_DELAY_MS * 2 ^ (m.retries - 1)] ∧
      (flushStep send now m L).actsOf.take 2 =
        [.wait (BASE_DELAY_MS * 2 ^ (m.retries - 1)), .attempt m (send m)]) ∧
    (m.retries = 0 →
      waitsOf (flushStep send now m L).actsOf = [] ∧
      (flushStep send now m L).actsOf.take 1 = [.attempt m (send m)]) := by
  have hn : ¬ MAX_RETRIES ≤ m.retries := Nat.not_le.mpr h
  have hpos : ∀ (hr : 0 < m.retries) (tail : List Action),
      preActs m ++ (.attempt m (send m) :: tail) =
        .wait (BASE_DELAY_MS * 2 ^ (m.retries - 1)) :: .attempt m (send m) :: tail := by
    intro hr tail
    simp [preActs, hr]
  have hzero : ∀ (hr : m.retries = 0) (tail : List Action),
      preActs m ++ (.attempt m (send m) :: tail) = .attempt m (send m) :: tail := by
    intro hr tail
    simp [preActs, hr]
  rcases hok : (send m).ok with _ | _
  · rcases hoff : (send m).offline with _ | _
    · rcases hst : decide ((send m).status = 409) with _ | _
      · have hst2 : (send m).status ≠ 409 := of_decide_eq_false hst
        rw [flushStep_retry send now m L hn hok hoff hst2]
        refine ⟨fun hr => ?_, fun hr => ?_⟩
        · simp only [StepOut.actsOf]
          rw [hpos hr]
          simp [waitsOf]
        · simp only [StepOut.actsOf]
          rw [hzero hr]
          simp [waitsOf]
      · have hst2 : (send m).status = 409 := of_decide_eq_true hst
        rw [flushStep_conflict send now m L hn hok hoff hst2]
        refine ⟨fun hr => ?_, fun hr => ?_⟩
        · simp only [StepOut.actsOf]
          rw [hpos hr]
          simp [waitsOf]
        · simp only [StepOut.actsOf]
          rw [hzero hr]
          simp [waitsOf]
    · rw [flushStep_offline send now m L hn hok hoff]
      refine ⟨fun hr => ?_, fun hr => ?_⟩
      · simp only [StepOut.actsOf]
        rw [hpos hr]
        simp [waitsOf]
      · simp only [StepOut.actsOf]
        rw [hzero hr]
        simp [waitsOf]
  · rw [flushStep_ok send now m L hn hok]
    refine ⟨fun hr => ?_, fun hr => ?_⟩
    · simp only [StepOut.actsOf]
      rw [hpos hr]
      simp [waitsOf]
    · simp only [StepOut.actsOf]
      rw [hzero hr]
      simp [waitsOf]

/-- Witness for C6 at `retries = 3` (wait `1000 * 2^2 = 4000`) and at
`retries = 0` (no wait). -/
theorem backoff_schedule_witness :
    (0 < m3.retries →
      waitsOf (flushStep send500 0 m3 [m3]).actsOf = [BASE_DELAY_MS * 2 ^ (m3.retries - 1)] ∧
      (flushStep send500 0 m3 [m3]).actsOf.take 2 =
        [.wait (BASE_DELAY_MS * 2 ^ (m3.retries - 1)), .attempt m3 (send500 m3)]) ∧
    (m3.retries = 0 →
      waitsOf (flushStep send500 0 m3 [m3]).actsOf = [] ∧
      (flushStep send500 0 m3 [m3]).actsOf.take 1 = [.attempt m3 (send500 m3)]) :=
  backoff_schedule send500 0 m3 [m3] (by decide)

/-- C8 counterexample: at the retry ceiling the code emits an event named
`failed`, not `discarded`; the full flush trace at a concrete record with
`retries = 5` is exactly a removal followed by the `failed` event, and the
record is gone from the ledger. -/
theorem discard_event_is_named_failed :
    Action.emit "discarded" m5 ∉ (flush send500 0 { ledger := [m5], flushing := false }).2 ∧
    (flush send500 0 { ledger := [m5], flushing := false }).2 =
      [.removeKey "k5", .emit "failed" m5] ∧
    (flush send500 0 { ledger := [m5], flushing := false }).1.ledger = [] := by
  decide

/-- C8 (amended): for a mutation whose `retries` is at least `MAX_RETRIES` at
the start of its turn, the loop removes it from the ledger, emits a `failed`
event (the discard notification) carrying the mutation, makes no transport
attempt for it, and continues with the next mutation (`.next`). -/
theorem discard_at_retry_ceiling (send : Mutation → FetchResult) (now : Nat)
    (m : Mutation) (L : List Mutation) (h : MAX_RETRIES ≤ m.retries) :
    flushStep send now m L =
      .next (ledgerRemove L m.idempotencyKey)
        [.removeKey m.idempotencyKey, .emit "failed" m] ∧
    attemptsOf (flushStep send now m L).actsOf = [] := by
  refine ⟨flushStep_discard send now m L h, ?_⟩
  rw [flushStep_discard send now m L h]
  rfl

/-- Witness for C8's amended theorem at a concrete record with `retries = 5`. -/
theorem discard_at_retry_ceiling_witness :
    flushStep send500 0 m5 [m5] =
      .next (ledgerRemove [m5] m5.idempotencyKey)
        [.removeKey m5.idempotencyKey, .emit "failed" m5] ∧
    attemptsOf (flushStep send500 0 m5 [m5]).actsOf = [] :=
  discard_at_retry_ceiling send500 0 m5 [m5] (by decide)

/-- C7 counterexample: the transport is not free of side effects beyond the
network call.  With a backend configured, a POST carrying an idempotency key
whose `fetch` throws makes `_fetch` enqueue the mutation to the offline
ledger, i.e. it persists state. -/
theorem fetch_persists_on_network_error :
    (fetchImpl "https://x" none netErr 7 "POST" "/tasks" (some "x") [] (some "k")).enqueued ≠ [] := by
  decide

/-- C7 (amended): `_fetch` performs at most one network request per
invocation and never retries internally; its only side effect beyond the
network call is enqueueing the failed write to the offline ledger, which
happens exactly when the request is a non-GET carrying an idempotency key,
the backend is configured, and the network call throws (result flagged
`offline`). -/
theorem fetch_single_request (baseUrl : String) (token : Option String)
    (net : NetRequest → NetResponse) (now : Nat) (method path : String)
    (body : Option String) (params : List (String × String)) (key : Option String) :
    (fetchImpl baseUrl token net now method path body params key).requests.length ≤ 1 ∧
    ((fetchImpl baseUrl token net now method path body params key).enqueued = [] ∨
      ((fetchImpl baseUrl token net now method path body params key).result.offline = true ∧
        method ≠ "GET" ∧ key.isSome ∧ baseUrl ≠ "")) := by
  by_cases hb : baseUrl = ""
  · simp [fetchImpl, hb]
  · cases hn : net (fetchRequest baseUrl token method path body params key) with
    | reply ok status isJson payload => simp [fetchImpl, hb, hn]
    | netError =>
      by_cases hw : method ≠ "GET" ∧ key.isSome
      · refine ⟨?_, Or.inr ⟨?_, hw.1, hw.2, hb⟩⟩
        · simp [fetchImpl, hb, hn]
        · simp [fetchImpl, hb, hn]
      · refine ⟨?_, Or.inl ?_⟩
        · simp [fetchImpl, hb, hn]
        · simp [fetchImpl, hb, hn, hw]

/-- C9: local-only mode versus network-unreachable.  With no backend
configured (`baseUrl = ""`), `_fetch` returns the `localOnly` transport
failure, issues no network request and enqueues nothing.  With a backend
configured, when the network call throws for a non-GET carrying an
idempotency key, the result is flagged `offline` (not `localOnly`) and the
mutation is enqueued to the ledger, so callers can tell the two apart. -/
theorem localonly_vs_offline (baseUrl : String) (token : Option String)
    (net : NetRequest → NetResponse) (now : Nat) (method path : String)
    (body : Option String) (params : List (String × String)) (key : Option String)
    (hb : baseUrl ≠ "")
    (hn : net (fetchRequest baseUrl token method path body params key) = .netError)
    (hm : method ≠ "GET") (hk : key.isSome) :
    (fetchImpl "" token net now method path body params key) =
      { result := { ok := false, status := 0, data := none, localOnly := true, offline := false }
        requests := []
        enqueued := [] } ∧
    (fetchImpl baseUrl token net now method path body params key).result.offline = true ∧
    (fetchImpl baseUrl token net now method path body params key).result.localOnly = false ∧
    (fetchImpl baseUrl token net now method path body params key).enqueued =
      [enqueueRecord
        { idempotencyKey := key.getD "", method := method, path := path
          body := body, enqueuedAt := some now, retries := 0 } now] := by
  refine ⟨by simp [fetchImpl], ?_, ?_, ?_⟩
  · simp [fetchImpl, hb, hn]
  · simp [fetchImpl, hb, hn]
  · simp [fetchImpl, hb, hn, hm, hk]

/-- Witness for C9 at a concrete configured backend and throwing network. -/
theorem localonly_vs_offline_witness :
    (fetchImpl "" none netErr 7 "POST" "/tasks" (some "x") [] (some "k")) =
      { result := { ok := false, status := 0, data := none, localOnly := true, offline := false }
        requests := []
        enqueued := [] } ∧
    (fetchImpl "https://x" none netErr 7 "POST" "/tasks" (some "x") [] (some "k")).result.offline = true ∧
    (fetchImpl "https://x" none netErr 7 "POST" "/tasks" (some "x") [] (some "k")).result.localOnly = false ∧
    (fetchImpl "https://x" none netErr 7 "POST" "/tasks" (some "x") [] (some "k")).enqueued =
      [enqueueRecord
        { idempotencyKey := (some "k").getD "", method := "POST", path := "/tasks"
          body := some "x", enqueuedAt := some 7, retries := 0 } 7] :=
  localonly_vs_offline "https://x" none netErr 7 "POST" "/tasks" (some "x") [] (some "k")
    (by decide) rfl (by decide) rfl

/-! ### Retry counter invariant (C10) -/

theorem retries_zero_flushStep (send : Mutation → FetchResult) (now : Nat) (m : Mutation)
    (L : List Mutation) (h : ∀ r ∈ L, Mutation.retries r = 0) :
    ∀ r ∈ (flushStep send now m L).ledgerOf, Mutation.retries r = 0 := by
  intro r hr
  simp only [flushStep] at hr
  split at hr
  · simp only [StepOut.ledgerOf, ledgerRemove] at hr
    exact h r (List.mem_of_mem_filter hr)
  · split at hr
    · simp only [StepOut.ledgerOf, ledgerRemove] at hr
      exact h r (List.mem_of_mem_filter hr)
    · split at hr
      · simp only [StepOut.ledgerOf] at hr
        exact h r hr
      · split at hr
        · simp only [StepOut.ledgerOf, ledgerRemove] at hr
          exact h r (List.mem_of_mem_filter hr)
        · simp only [StepOut.ledgerOf, ledgerPut] at hr
          rcases List.mem_append.mp hr with h1 | h1
          · exact h r (List.mem_of_mem_filter h1)
          · rw [List.mem_singleton.mp h1]
            rfl

theorem retries_zero_flushLoop (send : Mutation → FetchResult) (now : Nat) :
    ∀ (items L : List Mutation), (∀ r ∈ L, Mutation.retries r = 0) →
      ∀ r ∈ (flushLoop send now items L).1, Mutation.retries r = 0 := by
  intro items
  induction items with
  | nil =>
    intro L h r hr
    simp only [flushLoop] at hr
    exact h r hr
  | cons m rest ih =>
    intro L h r hr
    have h2 := retries_zero_flushStep send now m L h
    cases hstep : flushStep send now m L with
    | next L2 acts =>
      rw [hstep] at h2
      simp only [StepOut.ledgerOf] at h2
      simp only [flushLoop, hstep] at hr
      exact ih L2 h2 r hr
    | halt L2 acts =>
      rw [hstep] at h2
      simp only [StepOut.ledgerOf] at h2
      simp only [flushLoop, hstep] at hr
      exact h2 r hr

/-- C10: every record persisted through `enqueue` has `retries = 0`
regardless of the retries value carried by the input mutation (including the
re-persist of a failed mutation during flush), and consequently a ledger
whose records all have `retries = 0` still has that property after any
`flush` — every record stored in the ledger at any time has `retries = 0`. -/
theorem ledger_retries_always_zero (send : Mutation → FetchResult) (now : Nat)
    (m : Mutation) (t : Nat) (s : QueueState)
    (h : s.ledger.all (fun r => r.retries == 0) = true) :
    (enqueueRecord m t).retries = 0 ∧
    (flush send now s).1.ledger.all (fun r => r.retries == 0) = true := by
  refine ⟨rfl, ?_⟩
  have hp : ∀ r ∈ s.ledger, Mutation.retries r = 0 := by
    intro r hr
    simpa using List.all_eq_true.mp h r hr
  rw [List.all_eq_true]
  intro r hr
  by_cases hf : s.flushing = true
  · simp only [flush, if_pos hf] at hr
    simpa using hp r hr
  · simp only [flush, if_neg hf] at hr
    simpa using retries_zero_flushLoop send now (getAll s.ledger) s.ledger hp r hr

/-- Witness for C10: the scenario ledger holding the freshly enqueued `wk1`,
an always-failing transport, and a re-persisted input carrying `retries = 3`. -/
theorem ledger_retries_always_zero_witness :
    (enqueueRecord m3 9).retries = 0 ∧
    (flush send500 0 s0).1.ledger.all (fun r => r.retries == 0) = true :=
  ledger_retries_always_zero send500 0 m3 9 s0 (by decide)

/-! ### Ordering and halting behaviour of the drain loop (C3, C4) -/

theorem getAll_perm (L : List Mutation) : List.Perm (getAll L) L :=
  List.perm_insertionSort timeLe L

theorem mem_getAll {x : Mutation} {L : List Mutation} : x ∈ getAll L ↔ x ∈ L :=
  (getAll_perm L).mem_iff

theorem getAll_sorted (L : List Mutation) : (getAll L).Sorted timeLe :=
  List.sorted_insertionSort timeLe L

theorem getAll_nodup_keys {L : List Mutation} (h : (keysOf L).Nodup) :
    (keysOf (getAll L)).Nodup :=
  ((getAll_perm L).map Mutation.idempotencyKey).nodup_iff.mpr h

theorem sorted_split_of_timeLt :
    ∀ {l : List Mutation}, l.Sorted timeLe → ∀ {a b : Mutation}, a ∈ l → b ∈ l →
      timeOf a < timeOf b → ∃ l1 l2, l = l1 ++ a :: l2 ∧ b ∈ l2 := by
  intro l
  induction l with
  | nil =>
    intro _ a b ha
    cases ha
  | cons x xs ih =>
    intro hs a b ha hb hab
    have hx := (List.sorted_cons.mp hs).1
    have hs2 := (List.sorted_cons.mp hs).2
    rcases List.mem_cons.mp ha with rfl | ha2
    · rcases List.mem_cons.mp hb with rfl | hb2
      · exact absurd hab (Nat.lt_irrefl _)
      · exact ⟨[], xs, rfl, hb2⟩
    · have hbx : b ≠ x := by
        intro he
        subst he
        exact Nat.lt_irrefl _ (Nat.lt_of_lt_of_le hab (hx a ha2))
      rcases List.mem_cons.mp hb with rfl | hb2
      · exact absurd rfl hbx
      · obtain ⟨l1, l2, heq, hbl2⟩ := ih hs2 ha2 hb2 hab
        exact ⟨x :: l1, l2, by rw [heq]; rfl, hbl2⟩

theorem keys_split_facts {l1 l2 : List Mutation} {A B : Mutation}
    (hnd : (keysOf (l1 ++ A :: l2)).Nodup) (hB : B ∈ l2) :
    (∀ m ∈ l1, m.idempotencyKey ≠ A.idempotencyKey) ∧
    (∀ m ∈ l1, m.idempotencyKey ≠ B.idempotencyKey) ∧ B ∉ l1 ∧ B ≠ A := by
  have h1 : keysOf (l1 ++ A :: l2) = keysOf l1 ++ A.idempotencyKey :: keysOf l2 := by
    simp [keysOf]
  rw [h1] at hnd
  obtain ⟨hn1, hn2, hdisj⟩ := List.nodup_append.mp hnd
  have hAk : A.idempotencyKey ∉ keysOf l2 := (List.nodup_cons.mp hn2).1
  have hBk : B.idempotencyKey ∈ keysOf l2 := List.mem_map.mpr ⟨B, hB, rfl⟩
  refine ⟨?_, ?_, ?_, ?_⟩
  · intro m hm he
    exact hdisj (List.mem_map.mpr ⟨m, hm, rfl⟩) (by rw [he]; exact List.mem_cons_self _ _)
  · intro m hm he
    exact hdisj (List.mem_map.mpr ⟨m, hm, rfl⟩) (by rw [he]; exact List.mem_cons_of_mem _ hBk)
  · intro hBl1
    exact hdisj (List.mem_map.mpr ⟨B, hBl1, rfl⟩) (List.mem_cons_of_mem _ hBk)
  · intro he
    rw [he] at hBk
    exact hAk hBk

theorem mem_flushStep_ledger (send : Mutation → FetchResult) (now : Nat) (m x : Mutation)
    (L : List Mutation) (hx : x ∈ L) (hne : x.idempotencyKey ≠ m.idempotencyKey) :
    x ∈ (flushStep send now m L).ledgerOf := by
  have hrem : x ∈ ledgerRemove L m.idempotencyKey := by
    simp [ledgerRemove, List.mem_filter, hx, hne]
  have hput : ∀ r : Mutation, r.idempotencyKey = m.idempotencyKey → x ∈ ledgerPut L r := by
    intro r hr
    apply List.mem_append_left
    simp [List.mem_filter, hx, hr, hne]
  simp only [flushStep]
  split
  · simpa [StepOut.ledgerOf] using hrem
  · split
    · simpa [StepOut.ledgerOf] using hrem
    · split
      · simpa [StepOut.ledgerOf] using hx
      · split
        · simpa [StepOut.ledgerOf] using hrem
        · simpa [StepOut.ledgerOf] using hput _ (enqueueRecord_key _ _)

theorem flushStep_halt_ledger (send : Mutation → FetchResult) (now : Nat) (m : Mutation)
    (L L2 : List Mutation) (acts : List Action)
    (h : flushStep send now m L = .halt L2 acts) : L2 = L := by
  simp only [flushStep] at h
  split at h
  · cases h
  · split at h
    · cases h
    · split at h
      · cases h
        rfl
      · split at h
        · cases h
        · cases h

theorem attemptsOf_preActs (m : Mutation) : attemptsOf (preActs m) = [] := by
  simp only [preActs]
  split
  · rfl
  · rfl

theorem attemptsOf_flushStep (send : Mutation → FetchResult) (now : Nat) (m : Mutation)
    (L : List Mutation) :
    attemptsOf (flushStep send now m L).actsOf = [] ∨
    attemptsOf (flushStep send now m L).actsOf = [m] := by
  simp only [flushStep]
  split
  · left
    rfl
  · split
    · right
      simp [StepOut.actsOf, attemptsOf_append, attemptsOf_preActs, attemptsOf]
    · split
      · right
        simp [StepOut.actsOf, attemptsOf_append, attemptsOf_preActs, attemptsOf]
      · split
        · right
          simp [StepOut.actsOf, attemptsOf_append, attemptsOf_preActs, attemptsOf]
        · right
          simp [StepOut.actsOf, attemptsOf_append, attemptsOf_preActs, attemptsOf]

theorem flushLoop_attempts_sublist (send : Mutation → FetchResult) (now : Nat) :
    ∀ (items L : List Mutation),
      List.Sublist (attemptsOf (flushLoop send now items L).2) items := by
  intro items
  induction items with
  | nil =>
    intro L
    simp [flushLoop, attemptsOf]
  | cons m rest ih =>
    intro L
    have hc := attemptsOf_flushStep send now m L
    cases hstep : flushStep send now m L with
    | next L2 acts =>
      rw [hstep] at hc
      simp only [StepOut.actsOf] at hc
      simp only [flushLoop, hstep, attemptsOf_append]
      rcases hc with hc | hc
      · rw [hc, List.nil_append]
        exact (ih L2).cons m
      · rw [hc, List.singleton_append]
        exact (ih L2).cons₂ m
    | halt L2 acts =>
      rw [hstep] at hc
      simp only [StepOut.actsOf] at hc
      simp only [flushLoop, hstep]
      rcases hc with hc | hc
      · rw [hc]
        exact (List.nil_sublist rest).cons m
      · rw [hc]
        exact (List.nil_sublist rest).cons₂ m

theorem flushLoop_halt_attempts (send : Mutation → FetchResult) (now : Nat)
    (a : Mutation) (ha : haltsOn send a) :
    ∀ (l1 l2 L : List Mutation) (x : Mutation),
      x ∈ attemptsOf (flushLoop send now (l1 ++ a :: l2) L).2 → x ∈ l1 ++ [a] := by
  intro l1
  induction l1 with
  | nil =>
    intro l2 L x hx
    obtain ⟨hr, hok, hoff⟩ := ha
    have hn : ¬ MAX_RETRIES ≤ a.retries := Nat.not_le.mpr hr
    rw [List.nil_append] at hx
    simp only [flushLoop, flushStep_offline send now a L hn hok hoff,
      attemptsOf_append, attemptsOf_preActs, attemptsOf] at hx
    simpa using hx
  | cons m t ih =>
    intro l2 L x hx
    have hc := attemptsOf_flushStep send now m L
    cases hstep : flushStep send now m L with
    | next L2 acts =>
      rw [hstep] at hc
      simp only [StepOut.actsOf] at hc
      rw [List.cons_append] at hx
      simp only [flushLoop, hstep, attemptsOf_append] at hx
      rcases List.mem_append.mp hx with h1 | h1
      · rcases hc with hc | hc
        · rw [hc] at h1
          cases h1
        · rw [hc] at h1
          obtain rfl := List.mem_singleton.mp h1
          exact List.mem_cons_self _ _
      · exact List.mem_cons_of_mem m (ih l2 L2 x h1)
    | halt L2 acts =>
      rw [hstep] at hc
      simp only [StepOut.actsOf] at hc
      rw [List.cons_append] at hx
      simp only [flushLoop, hstep] at hx
      rcases hc with hc | hc
      · rw [hc] at hx
        cases hx
      · rw [hc] at hx
        obtain rfl := List.mem_singleton.mp hx
        exact List.mem_cons_self _ _

theorem flushLoop_mem_of_halts (send : Mutation → FetchResult) (now : Nat)
    (a : Mutation) (ha : haltsOn send a) :
    ∀ (l1 l2 L : List Mutation) (x : Mutation), x ∈ L →
      (∀ m ∈ l1, m.idempotencyKey ≠ x.idempotencyKey) →
      x ∈ (flushLoop send now (l1 ++ a :: l2) L).1 := by
  intro l1
  induction l1 with
  | nil =>
    intro l2 L x hx _
    obtain ⟨hr, hok, hoff⟩ := ha
    have hn : ¬ MAX_RETRIES ≤ a.retries := Nat.not_le.mpr hr
    rw [List.nil_append]
    simp only [flushLoop, flushStep_offline send now a L hn hok hoff]
    exact hx
  | cons m t ih =>
    intro l2 L x hx hkeys
    have hne : x.idempotencyKey ≠ m.idempotencyKey :=
      fun he => hkeys m (List.mem_cons_self m t) he.symm
    have hmem := mem_flushStep_ledger send now m x L hx hne
    rw [List.cons_append]
    cases hstep : flushStep send now m L with
    | next L2 acts =>
      rw [hstep] at hmem
      simp only [StepOut.ledgerOf] at hmem
      simp only [flushLoop, hstep]
      exact ih l2 L2 x hmem (fun m2 hm2 => hkeys m2 (List.mem_cons_of_mem m hm2))
    | halt L2 acts =>
      have hL : L2 = L := flushStep_halt_ledger send now m L L2 acts hstep
      simp only [flushLoop, hstep]
      rw [hL]
      exact hx

/-- C3: ordering and transport-stop.  For two pending mutations `A`, `B` of a
ledger with unique keys, with `A.enqueuedAt` strictly earlier than
`B.enqueuedAt`, the `getAll` snapshot places `A` before `B` (oldest first,
so `A` is attempted before `B` in every pass), and when `A`'s attempt ends in
a transport-level failure (`haltsOn`), `B` is not attempted in that pass and
both `A` and `B` remain in the ledger. -/
theorem flush_order_and_transport_stop (send : Mutation → FetchResult) (now : Nat)
    (L : List Mutation) (A B : Mutation)
    (hnd : (keysOf L).Nodup) (hA : A ∈ L) (hB : B ∈ L)
    (hord : timeOf A < timeOf B) (hhalt : haltsOn send A) :
    List.indexOf A (getAll L) < List.indexOf B (getAll L) ∧
    B ∉ attemptsOf (flush send now { ledger := L, flushing := false }).2 ∧
    A ∈ (flush send now { ledger := L, flushing := false }).1.ledger ∧
    B ∈ (flush send now { ledger := L, flushing := false }).1.ledger := by
  have hsk : (keysOf (getAll L)).Nodup := getAll_nodup_keys hnd
  have hA2 : A ∈ getAll L := mem_getAll.mpr hA
  have hB2 : B ∈ getAll L := mem_getAll.mpr hB
  obtain ⟨l1, l2, hsplit, hBl2⟩ := sorted_split_of_timeLt (getAll_sorted L) hA2 hB2 hord
  have hsk2 := hsk
  rw [hsplit] at hsk2
  obtain ⟨hkA, hkB, hBnl1, hBA⟩ := keys_split_facts hsk2 hBl2
  have hfl2 : (flush send now { ledger := L, flushing := false }).2 =
      (flushLoop send now (getAll L) L).2 := by
    simp [flush]
  have hfl1 : (flush send now { ledger := L, flushing := false }).1.ledger =
      (flushLoop send now (getAll L) L).1 := by
    simp [flush]
  refine ⟨?_, ?_, ?_, ?_⟩
  · by_contra hc
    push_neg at hc
    have hAlt : List.indexOf A (getAll L) < (getAll L).length := List.indexOf_lt_length.mpr hA2
    have hBlt : List.indexOf B (getAll L) < (getAll L).length := List.indexOf_lt_length.mpr hB2
    have hgA : (getAll L).get ⟨List.indexOf A (getAll L), hAlt⟩ = A := List.indexOf_get hAlt
    have hgB : (getAll L).get ⟨List.indexOf B (getAll L), hBlt⟩ = B := List.indexOf_get hBlt
    rcases Nat.eq_or_lt_of_le hc with he | hlt
    · have hab : A = B := by
        rw [← hgA, ← hgB]
        congr 1
        exact Fin.ext he.symm
      rw [hab] at hord
      exact Nat.lt_irrefl _ hord
    · have hrel := (getAll_sorted L).rel_get_of_lt
        (a := ⟨List.indexOf B (getAll L), hBlt⟩) (b := ⟨List.indexOf A (getAll L), hAlt⟩) hlt
      rw [hgA, hgB] at hrel
      exact Nat.lt_irrefl _ (Nat.lt_of_lt_of_le hord hrel)
  · rw [hfl2, hsplit]
    intro hmem
    rcases List.mem_append.mp (flushLoop_halt_attempts send now A hhalt l1 l2 L B hmem)
      with h1 | h1
    · exact hBnl1 h1
    · exact hBA (List.mem_singleton.mp h1)
  · rw [hfl1, hsplit]
    exact flushLoop_mem_of_halts send now A hhalt l1 l2 L A hA hkA
  · rw [hfl1, hsplit]
    exact flushLoop_mem_of_halts send now A hhalt l1 l2 L B hB hkB

/-- Witness for C3: ledger `[wB, wA]` (stored out of order, `wA` older), a
transport that always reports a network error. -/
theorem flush_order_and_transport_stop_witness :
    List.indexOf wA (getAll [wB, wA]) < List.indexOf wB (getAll [wB, wA]) ∧
    wB ∉ attemptsOf (flush sendOffline 0 { ledger := [wB, wA], flushing := false }).2 ∧
    wA ∈ (flush sendOffline 0 { ledger := [wB, wA], flushing := false }).1.ledger ∧
    wB ∈ (flush sendOffline 0 { ledger := [wB, wA], flushing := false }).1.ledger :=
  flush_order_and_transport_stop sendOffline 0 [wB, wA] wA wB (by decide) (by decide)
    (by decide) (by decide) ⟨by decide, rfl, rfl⟩

theorem flushStep_ne_halt (send : Mutation → FetchResult) (now : Nat) (m : Mutation)
    (L L2 : List Mutation) (acts : List Action) (hoff : (send m).offline = false) :
    flushStep send now m L ≠ .halt L2 acts := by
  by_cases h5 : MAX_RETRIES ≤ m.retries
  · rw [flushStep_discard send now m L h5]
    simp
  · rcases hok : (send m).ok with _ | _
    · rcases hst : decide ((send m).status = 409) with _ | _
      · rw [flushStep_retry send now m L h5 hok hoff (of_decide_eq_false hst)]
        simp
      · rw [flushStep_conflict send now m L h5 hok hoff (of_decide_eq_true hst)]
        simp
    · rw [flushStep_ok send now m L h5 hok]
      simp

theorem flushLoop_append (send : Mutation → FetchResult) (now : Nat) :
    ∀ (items1 items2 L : List Mutation),
      (∀ m ∈ items1, (send m).offline = false) →
      flushLoop send now (items1 ++ items2) L =
        ((flushLoop send now items2 (flushLoop send now items1 L).1).1,
          (flushLoop send now items1 L).2 ++
            (flushLoop send now items2 (flushLoop send now items1 L).1).2) := by
  intro items1
  induction items1 with
  | nil =>
    intro items2 L _
    simp [flushLoop]
  | cons m t ih =>
    intro items2 L hno
    have hoffm : (send m).offline = false := hno m (List.mem_cons_self m t)
    cases hstep : flushStep send now m L with
    | next L2 acts =>
      rw [List.cons_append]
      simp only [flushLoop, hstep]
      rw [ih items2 L2 (fun x hx => hno x (List.mem_cons_of_mem m hx))]
      simp [List.append_assoc]
    | halt L2 acts =>
      exact absurd hstep (flushStep_ne_halt send now m L L2 acts hoffm)

theorem key_not_mem_ledgerRemove (L : List Mutation) (k : String) :
    k ∉ keysOf (ledgerRemove L k) := by
  intro h
  simp only [keysOf, ledgerRemove, List.mem_map] at h
  obtain ⟨x, hx, he⟩ := h
  have h2 : x.idempotencyKey ≠ k := by simpa using List.of_mem_filter hx
  exact h2 he

theorem keys_flushStep (send : Mutation → FetchResult) (now : Nat) (m : Mutation)
    (L : List Mutation) (k : String) (hk : k ∉ keysOf L) (hm : m.idempotencyKey ≠ k) :
    k ∉ keysOf (flushStep send now m L).ledgerOf := by
  have hrem : ∀ k2, k ∉ keysOf (ledgerRemove L k2) := by
    intro k2 hmem
    apply hk
    simp only [keysOf, ledgerRemove, List.mem_map] at hmem ⊢
    obtain ⟨x, hx, he⟩ := hmem
    exact ⟨x, List.mem_of_mem_filter hx, he⟩
  have hput : ∀ r : Mutation, r.idempotencyKey = m.idempotencyKey →
      k ∉ keysOf (ledgerPut L r) := by
    intro r hr hmem
    simp only [keysOf, ledgerPut, List.map_append, List.mem_append, List.mem_map] at hmem
    rcases hmem with ⟨x, hx, he⟩ | h1
    · exact hk (List.mem_map.mpr ⟨x, List.mem_of_mem_filter hx, he⟩)
    · obtain ⟨a, ha, hak⟩ := h1
      obtain rfl := List.mem_singleton.mp ha
      rw [hr] at hak
      exact hm hak
  simp only [flushStep]
  split
  · simpa [StepOut.ledgerOf] using hrem m.idempotencyKey
  · split
    · simpa [StepOut.ledgerOf] using hrem m.idempotencyKey
    · split
      · simpa [StepOut.ledgerOf] using hk
      · split
        · simpa [StepOut.ledgerOf] using hrem m.idempotencyKey
        · simpa [StepOut.ledgerOf] using hput _ (enqueueRecord_key _ _)

theorem flushLoop_key_not_mem (send : Mutation → FetchResult) (now : Nat) (k : String) :
    ∀ (items L : List Mutation), k ∉ keysOf L →
      (∀ m ∈ items, m.idempotencyKey ≠ k) →
      k ∉ keysOf (flushLoop send now items L).1 := by
  intro items
  induction items with
  | nil =>
    intro L hk _
    simpa [flushLoop] using hk
  | cons m rest ih =>
    intro L hk hall
    have hstep2 := keys_flushStep send now m L k hk (hall m (List.mem_cons_self m rest))
    cases hstep : flushStep send now m L with
    | next L2 acts =>
      rw [hstep] at hstep2
      simp only [StepOut.ledgerOf] at hstep2
      simp only [flushLoop, hstep]
      exact ih L2 hstep2 (fun x hx => hall x (List.mem_cons_of_mem m hx))
    | halt L2 acts =>
      rw [hstep] at hstep2
      simp only [StepOut.ledgerOf] at hstep2
      simp only [flushLoop, hstep]
      exact hstep2

/-- C4: conflict short-circuit.  In a flush pass in which the transport is
reachable (no network errors), a pending mutation whose attempt returns HTTP
409 is attempted exactly once, the trace contains its ledger removal
immediately followed by the `conflict` event (the event is emitted only
after the removal has completed), and its key is absent from the ledger the
pass leaves behind, so it is never retried on the next flush. -/
theorem conflict_shortcircuit (send : Mutation → FetchResult) (now : Nat)
    (L : List Mutation) (m : Mutation)
    (hnd : (keysOf L).Nodup) (hm : m ∈ L) (hr : m.retries < MAX_RETRIES)
    (hok : (send m).ok = false) (hst : (send m).status = 409)
    (hno : ∀ x, (send x).offline = false) :
    (attemptsOf (flush send now { ledger := L, flushing := false }).2).count m = 1 ∧
    List.IsInfix [Action.removeKey m.idempotencyKey, Action.emit "conflict" m]
      (flush send now { ledger := L, flushing := false }).2 ∧
    m.idempotencyKey ∉ keysOf (flush send now { ledger := L, flushing := false }).1.ledger := by
  have hfl2 : (flush send now { ledger := L, flushing := false }).2 =
      (flushLoop send now (getAll L) L).2 := by
    simp [flush]
  have hfl1 : (flush send now { ledger := L, flushing := false }).1.ledger =
      (flushLoop send now (getAll L) L).1 := by
    simp [flush]
  have hm2 : m ∈ getAll L := mem_getAll.mpr hm
  obtain ⟨l1, l2, hsplit⟩ := List.append_of_mem hm2
  have hsk : (keysOf (getAll L)).Nodup := getAll_nodup_keys hnd
  rw [hsplit] at hsk
  have hsnd : (l1 ++ m :: l2).Nodup := List.Nodup.of_map Mutation.idempotencyKey hsk
  obtain ⟨hn1, hn2, hdisj⟩ := List.nodup_append.mp hsnd
  have hml1 : m ∉ l1 := fun hc => hdisj hc (List.mem_cons_self m l2)
  have hml2 : m ∉ l2 := (List.nodup_cons.mp hn2).1
  have hkeyl2 : ∀ x ∈ l2, x.idempotencyKey ≠ m.idempotencyKey := by
    have h1 : keysOf (l1 ++ m :: l2) = keysOf l1 ++ m.idempotencyKey :: keysOf l2 := by
      simp [keysOf]
    rw [h1] at hsk
    obtain ⟨_, hn2k, _⟩ := List.nodup_append.mp hsk
    have hknot : m.idempotencyKey ∉ keysOf l2 := (List.nodup_cons.mp hn2k).1
    intro x hx he
    exact hknot (by rw [← he]; exact List.mem_map.mpr ⟨x, hx, rfl⟩)
  have hnol1 : ∀ x ∈ l1, (send x).offline = false := fun x _ => hno x
  have hdec := flushLoop_append send now l1 (m :: l2) L hnol1
  have hstepm := flushStep_conflict send now m (flushLoop send now l1 L).1
    (Nat.not_le.mpr hr) hok (hno m) hst
  have hloopm : flushLoop send now (m :: l2) (flushLoop send now l1 L).1 =
      ((flushLoop send now l2
          (ledgerRemove (flushLoop send now l1 L).1 m.idempotencyKey)).1,
        (preActs m ++ [.attempt m (send m), .removeKey m.idempotencyKey,
            .emit "conflict" m]) ++
          (flushLoop send now l2
            (ledgerRemove (flushLoop send now l1 L).1 m.idempotencyKey)).2) := by
    simp only [flushLoop, hstepm]
  have htr : (flush send now { ledger := L, flushing := false }).2 =
      (flushLoop send now l1 L).2 ++
        (preActs m ++ .attempt m (send m) :: .removeKey m.idempotencyKey ::
          .emit "conflict" m ::
          (flushLoop send now l2
            (ledgerRemove (flushLoop send now l1 L).1 m.idempotencyKey)).2) := by
    rw [hfl2, hsplit, hdec, hloopm]
    simp
  have hled : (flush send now { ledger := L, flushing := false }).1.ledger =
      (flushLoop send now l2
        (ledgerRemove (flushLoop send now l1 L).1 m.idempotencyKey)).1 := by
    rw [hfl1, hsplit, hdec, hloopm]
  refine ⟨?_, ?_, ?_⟩
  · rw [htr]
    have h1 : (attemptsOf (flushLoop send now l1 L).2).count m = 0 :=
      List.count_eq_zero.mpr
        (fun hc => hml1 ((flushLoop_attempts_sublist send now l1 L).subset hc))
    have h2 : (attemptsOf (flushLoop send now l2
        (ledgerRemove (flushLoop send now l1 L).1 m.idempotencyKey)).2).count m = 0 :=
      List.count_eq_zero.mpr
        (fun hc => hml2 ((flushLoop_attempts_sublist send now l2 _).subset hc))
    simp [attemptsOf_append, attemptsOf_preActs, attemptsOf, List.count_append, h1, h2]
  · rw [htr]
    refine ⟨(flushLoop send now l1 L).2 ++ preActs m ++ [Action.attempt m (send m)],
      (flushLoop send now l2
        (ledgerRemove (flushLoop send now l1 L).1 m.idempotencyKey)).2, ?_⟩
    simp [List.append_assoc]
  · rw [hled]
    exact flushLoop_key_not_mem send now m.idempotencyKey l2
      (ledgerRemove (flushLoop send now l1 L).1 m.idempotencyKey)
      (key_not_mem_ledgerRemove (flushLoop send now l1 L).1 m.idempotencyKey)
      hkeyl2

/-- Witness for C4: singleton ledger `[wA]` and a transport that always
returns HTTP 409. -/
theorem conflict_shortcircuit_witness :
    (attemptsOf (flush send409 0 { ledger := [wA], flushing := false }).2).count wA = 1 ∧
    List.IsInfix [Action.removeKey wA.idempotencyKey, Action.emit "conflict" wA]
      (flush send409 0 { ledger := [wA], flushing := false }).2 ∧
    wA.idempotencyKey ∉ keysOf (flush send409 0 { ledger := [wA], flushing := false }).1.ledger :=
  conflict_shortcircuit send409 0 [wA] wA (by decide) (by decide) (by decide) rfl rfl
    (fun _ => rfl)

end MC
